import Mathlib

/-!
Verification development for the dynamic continuous-batching scheduler
(router `queue.rs` and `infer.rs`).

The Rust code is shallowly embedded: machine integers become `Nat`
(the quantities involved are token counts, far from overflow, and no claim
is about wrap-around), `Instant` becomes a `Nat` timestamp in seconds,
`Duration::from_secs(1)` becomes the constant `1`, the `VecDeque` of queue
entries becomes a `List`, the `BTreeSet<(usize, usize, &u64)>` becomes a
duplicate-free `List` kept sorted in *descending* lexicographic order (so
that walking the list front-to-back corresponds to `iter().rev()`), and a
Rust `panic!`/`expect` becomes an `Option` result with `none` for the panic.
Channel state is a static `disconnected : Bool` per entry.
-/

namespace TGI

/-- `MAX_WAITING_DURATION` from queue.rs, in seconds. -/
def MAX_WAITING_DURATION : Nat := 1

/-- `CUTOFF_DURATION` from queue.rs, in seconds. -/
def CUTOFF_DURATION : Nat := 1

/-- Queue entry (`Entry` in queue.rs).  `truncate` and `max_new_tokens` are the
fields of the validated request that the scheduler reads; `disconnected`
models `response_tx.is_disconnected()`. -/
structure EntryE where
  truncate : Nat
  max_new_tokens : Nat
  generated_tokens : Nat
  disconnected : Bool
  queue_time : Nat
  batch_time : Option Nat
deriving DecidableEq, Repr

/-- `BatchingConfig` from queue.rs. -/
structure BatchingConfig where
  size_limit : Nat
  weight_limit : Nat
  prefill_weight_limit : Nat
deriving DecidableEq, Repr

/-- The `BatchType` trait from queue.rs, as a record of operations over a
statistics summary type `S`.  `dflt` is `Stats::default()`. -/
structure BatchType (S : Type) where
  dflt : S
  update_stats : S → Nat → Nat → S
  batch_weight : S → Nat → Nat
  prefill_weight : S → Nat → Nat
  exceeds_weight : List (Nat × Nat × Nat) → Nat → Nat → Bool

/-- `BatchType::compute_stats`: fold every entry of a map into the summary. -/
def computeStats {S : Type} (B : BatchType S) (entries : List (Nat × EntryE)) : S :=
  entries.foldl (fun s p => B.update_stats s p.2.truncate p.2.max_new_tokens) B.dflt

/-- Strict lexicographic order on the `(remaining_output, input, id)` tuples
stored in the btree. -/
def tupLt (a b : Nat × Nat × Nat) : Bool :=
  a.1 < b.1 || (a.1 = b.1 && (a.2.1 < b.2.1 || (a.2.1 = b.2.1 && a.2.2 < b.2.2)))

/-- `BTreeSet::insert` on the descending-sorted duplicate-free list. -/
def treeInsert (x : Nat × Nat × Nat) : List (Nat × Nat × Nat) → List (Nat × Nat × Nat)
  | [] => [x]
  | y :: rest =>
    if x = y then y :: rest
    else if tupLt y x then x :: y :: rest
    else y :: treeInsert x rest

/-- `BTreeSet::remove` on the descending-sorted duplicate-free list. -/
def treeRemove (x : Nat × Nat × Nat) : List (Nat × Nat × Nat) → List (Nat × Nat × Nat)
  | [] => []
  | y :: rest => if x = y then rest else y :: treeRemove x rest

/-- Loop body of `FlashBatch::exceeds_weight`.  The list is the btree read in
descending order (`iter().rev()`); `bs` is the running `enumerate` index and
`inSum` the running input sum. -/
def flashExceedsGo (maxW col : Nat) : Nat → Nat → List (Nat × Nat × Nat) → Bool
  | _, _, [] => false
  | bs, inSum, (ol, il, _) :: rest =>
    if ol ≤ col ∧ inSum + il + (bs + 1) * ol > maxW then true
    else flashExceedsGo maxW col (bs + 1) (inSum + il) rest

/-- `FlashBatch::exceeds_weight` from queue.rs. -/
def flashExceeds (tree : List (Nat × Nat × Nat)) (maxW col : Nat) : Bool :=
  flashExceedsGo maxW col 0 0 tree

/-- Loop body of `PaddedBatch::exceeds_weight`: `maxIn` is the running maximum
input length and `lastOl` the previously seen output tier. -/
def paddedExceedsGo (maxW col : Nat) : Nat → Nat → Nat → List (Nat × Nat × Nat) → Bool
  | _, _, _, [] => false
  | bs, maxIn, lastOl, (ol, il, _) :: rest =>
    if ol ≠ lastOl then
      if ol ≤ col ∧ (max maxIn il + ol) ^ 2 * (bs + 1) > maxW then true
      else paddedExceedsGo maxW col (bs + 1) (max maxIn il) ol rest
    else paddedExceedsGo maxW col (bs + 1) maxIn lastOl rest

/-- `PaddedBatch::exceeds_weight` from queue.rs. -/
def paddedExceeds (tree : List (Nat × Nat × Nat)) (maxW col : Nat) : Bool :=
  paddedExceedsGo maxW col 0 0 0 tree

/-- The `FlashBatch` cost model: statistics are the total token count. -/
def FlashBatch : BatchType Nat where
  dflt := 0
  update_stats := fun total input_length output_length => total + input_length + output_length
  batch_weight := fun total _ => total
  prefill_weight := fun total _ => total
  exceeds_weight := flashExceeds

/-- The `PaddedBatch` cost model: statistics are
`(max_input_length, max_output_length)`. -/
def PaddedBatch : BatchType (Nat × Nat) where
  dflt := (0, 0)
  update_stats := fun s input_length output_length =>
    (max s.1 input_length, max s.2 output_length)
  batch_weight := fun s batch_size => batch_size * (s.1 + s.2) ^ 2
  prefill_weight := fun s batch_size => batch_size * Nat.sqrt (s.1 ^ 3)
  exceeds_weight := paddedExceeds

/-- The mutable locals of the selection loop in `State::next_batch`
(queue.rs lines 356-464).  `chosen_indices` additionally carries the id and a
copy of each chosen entry, which the Rust code re-reads from the unchanged
deque via `self.entries.get(*i)`. -/
structure ScanState (S : Type) where
  queue_index : Nat
  checked_up_to_index : Nat
  chosen_indices : List (Nat × Nat × EntryE)
  indices_to_drop : List Nat
  btree : Option (List (Nat × Nat × Nat))
  time_cutoff : Option Nat
  hit_prefill_weight_limit : Bool
  batch_stats : S
  prefill_stats : S
  total_count : Nat
deriving DecidableEq, Repr

/-- The record inserted into the btree for an existing or pending entry:
`(max_new_tokens - generated, truncate + generated, id)`. -/
def projTuple (p : Nat × EntryE) : Nat × Nat × Nat :=
  (p.2.max_new_tokens - p.2.generated_tokens, p.2.truncate + p.2.generated_tokens, p.1)

/-- Lazy first-time population of the btree from the existing batch plus the
entries already chosen in this scan. -/
def buildTree (existing : List (Nat × EntryE)) (chosen : List (Nat × Nat × EntryE)) :
    List (Nat × Nat × Nat) :=
  (existing ++ chosen.map (fun c => (c.2.1, c.2.2))).foldl
    (fun t p => treeInsert (projTuple p) t) []

/-- The loop-head break test: a cutoff is set and this entry arrived after it. -/
def cutoffExceeded (c : Option Nat) (qt : Nat) : Bool :=
  match c with
  | some t => decide (t < qt)
  | none => false

/-- Tail of the loop body: commit the entry to the batch.  The `Bool` result is
`true` when the loop must stop (`total_count >= size_limit`). -/
def scanCommit {S : Type} (cfg : BatchingConfig) (s : ScanState S) (eid : Nat) (e : EntryE)
    (next_stats : S) : ScanState S × Bool :=
  let s1 := { s with batch_stats := next_stats,
                     chosen_indices := s.chosen_indices ++ [(s.queue_index - 1, eid, e)],
                     total_count := s.total_count + 1 }
  (s1, decide (s1.total_count ≥ cfg.size_limit))

/-- Part of the loop body after the combined-weight gate: the prefill-weight
gate (queue.rs lines 438-455) and then the commit.  `btree1` is the btree as
updated by the weight gate. -/
def scanAccept {S : Type} (B : BatchType S) (cfg : BatchingConfig) (s : ScanState S)
    (eid : Nat) (e : EntryE) (btree1 : Option (List (Nat × Nat × Nat))) (next_stats : S) :
    ScanState S × Bool :=
  if 0 < cfg.prefill_weight_limit then
    let next_prefill_stats := B.update_stats s.prefill_stats e.truncate 0
    if B.prefill_weight next_prefill_stats (s.chosen_indices.length + 1) >
        cfg.prefill_weight_limit then
      match btree1 with
      | some t =>
        ({ s with btree := some (treeRemove (e.max_new_tokens, e.truncate, eid) t),
                  hit_prefill_weight_limit := true,
                  time_cutoff := some (s.time_cutoff.getD (e.queue_time + CUTOFF_DURATION)) },
          false)
      | none =>
        ({ s with btree := none,
                  time_cutoff := some (s.time_cutoff.getD (e.queue_time + CUTOFF_DURATION)) },
          false)
    else
      scanCommit cfg { s with btree := btree1, prefill_stats := next_prefill_stats } eid e
        next_stats
  else
    scanCommit cfg { s with btree := btree1 } eid e next_stats

/-- One iteration of the selection loop of `State::next_batch` on entry
`x = (entry_id, entry)`.  The `Bool` result is `true` when the loop breaks
without consuming further entries. -/
def scanStep {S : Type} (B : BatchType S) (cfg : BatchingConfig)
    (existing : List (Nat × EntryE)) (s : ScanState S) (x : Nat × EntryE) :
    ScanState S × Bool :=
  if cutoffExceeded s.time_cutoff x.2.queue_time then (s, true)
  else
    let s1 := { s with queue_index := s.queue_index + 1 }
    if x.2.disconnected then
      ({ s1 with indices_to_drop := s1.indices_to_drop ++ [s1.queue_index] }, false)
    else
      let s2 := { s1 with checked_up_to_index := s1.checked_up_to_index + 1 }
      let next_stats := B.update_stats s2.batch_stats x.2.truncate x.2.max_new_tokens
      if B.batch_weight s2.batch_stats (s2.total_count + 1) > cfg.weight_limit then
        let tree0 :=
          match s2.btree with
          | some t => t
          | none => buildTree existing s2.chosen_indices
        let tree1 := treeInsert (x.2.max_new_tokens, x.2.truncate, x.1) tree0
        if B.exceeds_weight tree1 cfg.weight_limit x.2.max_new_tokens then
          ({ s2 with btree := some (treeRemove (x.2.max_new_tokens, x.2.truncate, x.1) tree1),
                     time_cutoff :=
                       some (s2.time_cutoff.getD (x.2.queue_time + CUTOFF_DURATION)) },
            false)
        else
          scanAccept B cfg s2 x.1 x.2 (some tree1) next_stats
      else
        scanAccept B cfg s2 x.1 x.2
          (Option.map (treeInsert (x.2.max_new_tokens, x.2.truncate, x.1)) s2.btree) next_stats

/-- The whole selection loop (`'queue_loop` in queue.rs). -/
def scanLoop {S : Type} (B : BatchType S) (cfg : BatchingConfig)
    (existing : List (Nat × EntryE)) : List (Nat × EntryE) → ScanState S → ScanState S
  | [], s => s
  | x :: rest, s =>
    match scanStep B cfg existing s x with
    | (s1, true) => s1
    | (s1, false) => scanLoop B cfg existing rest s1

/-- Halt-aware form of `scanStep`, for reasoning about intermediate states of
the loop: once halted the state is frozen. -/
def scanStepH {S : Type} (B : BatchType S) (cfg : BatchingConfig)
    (existing : List (Nat × EntryE)) (p : ScanState S × Bool) (x : Nat × EntryE) :
    ScanState S × Bool :=
  if p.2 then p else scanStep B cfg existing p.1 x

/-- Fold of `scanStepH` over a list of entries. -/
def scanSteps {S : Type} (B : BatchType S) (cfg : BatchingConfig)
    (existing : List (Nat × EntryE)) (l : List (Nat × EntryE)) (p : ScanState S × Bool) :
    ScanState S × Bool :=
  l.foldl (scanStepH B cfg existing) p

/-- The loop state after the first `m` entries of the scanned range. -/
def scanAt {S : Type} (B : BatchType S) (cfg : BatchingConfig)
    (existing : List (Nat × EntryE)) (l : List (Nat × EntryE)) (s0 : ScanState S) (m : Nat) :
    ScanState S × Bool :=
  scanSteps B cfg existing (l.take m) (s0, false)

/-- Initial loop state (queue.rs lines 356-368): both indices start at the
checked-request cursor, the batch statistics summarize the existing batch, and
the prefill statistics are those of the empty map. -/
def initScan {S : Type} (B : BatchType S) (existing : List (Nat × EntryE)) (checked : Nat) :
    ScanState S :=
  { queue_index := checked
    checked_up_to_index := checked
    chosen_indices := []
    indices_to_drop := []
    btree := none
    time_cutoff := none
    hit_prefill_weight_limit := false
    batch_stats := computeStats B existing
    prefill_stats := B.dflt
    total_count := existing.length }

/-- The front-of-queue filter of cancelled entries (queue.rs lines 337-341).
Each pop resets the checked-request cursor to zero. -/
def frontFilter (checked : Nat) : List (Nat × EntryE) → Nat × List (Nat × EntryE)
  | [] => (checked, [])
  | (eid, e) :: rest =>
    if e.disconnected then frontFilter 0 rest else (checked, (eid, e) :: rest)

/-- `State::next_entry_waiting_too_long`. -/
def nextEntryWaitingTooLong (entries : List (Nat × EntryE)) (now : Nat) : Bool :=
  match entries.head? with
  | some (_, e) => decide (now - e.queue_time > MAX_WAITING_DURATION)
  | none => false

/-- `VecDeque::remove`: remove and return the element at an index, `none` when
the index is out of range. -/
def removeAt {α : Type} : List α → Nat → Option (α × List α)
  | [], _ => none
  | x :: rest, 0 => some (x, rest)
  | x :: rest, n + 1 =>
    match removeAt rest n with
    | none => none
    | some (y, rest1) => some (y, x :: rest1)

/-- Sequential removal of the recorded drop indices (queue.rs lines 466-472);
an out-of-range index is silently ignored, as the unused `Option` result of
`VecDeque::remove` is there. -/
def applyDrops (entries : List (Nat × EntryE)) (idxs : List Nat) : List (Nat × EntryE) :=
  idxs.foldl
    (fun es i =>
      match removeAt es i with
      | none => es
      | some (_, es1) => es1)
    entries

/-- The fields of `Request` that the scheduler fills from an entry. -/
structure RequestE where
  id : Nat
  truncate : Nat
  max_new_tokens : Nat
deriving DecidableEq, Repr

/-- `Batch` handed to the backend. -/
structure BatchE where
  id : Nat
  requests : List RequestE
  size : Nat
deriving DecidableEq, Repr

/-- `IntMap::insert`: replace the value when the key is present, append
otherwise. -/
def insertA (l : List (Nat × EntryE)) (eid : Nat) (e : EntryE) : List (Nat × EntryE) :=
  if l.any (fun p => p.1 = eid) then l.map (fun p => if p.1 = eid then (eid, e) else p)
  else l ++ [(eid, e)]

/-- The batch-construction loop of `State::next_batch` (queue.rs lines
499-525): pop each chosen index (shifted by the number of prior pops) from the
deque, stamp `batch_time`, build the request, insert into `batch_entries`.
`none` models the `.expect("bug")` panic when a pop fails. -/
def buildBatch (now : Nat) :
    List (Nat × Nat × EntryE) → Nat → List (Nat × EntryE) → List RequestE →
      List (Nat × EntryE) →
      Option (List (Nat × EntryE) × List RequestE × List (Nat × EntryE))
  | [], _, deque, reqs, bents => some (deque, reqs, bents)
  | c :: rest, i, deque, reqs, bents =>
    match removeAt deque (c.1 - i) with
    | none => none
    | some ((eid, e), deque1) =>
      buildBatch now rest (i + 1) deque1
        (reqs ++ [{ id := eid, truncate := e.truncate, max_new_tokens := e.max_new_tokens }])
        (insertA bents eid { e with batch_time := some now })

/-- The mutable state of `State` in queue.rs (minus the spans and metrics). -/
structure StateE where
  config : BatchingConfig
  entries : List (Nat × EntryE)
  next_id : Nat
  next_batch_id : Nat
  last_seen_batch_size : Nat
  checked_request_count : Nat
  buffer_contents_insufficient : Bool
deriving DecidableEq, Repr

/-- Steps 2-3 of `next_batch`: reset the cursor when the existing-batch size
changed, then filter cancelled entries from the front of the queue. -/
def prepState (st : StateE) (total : Nat) : StateE :=
  let st0 :=
    if total ≠ st.last_seen_batch_size then
      { st with checked_request_count := 0, last_seen_batch_size := total }
    else st
  let fc := frontFilter st0.checked_request_count st0.entries
  { st0 with checked_request_count := fc.1, entries := fc.2 }

/-- The full selection scan performed by `next_batch` over the unchecked tail
of the (front-filtered) queue. -/
def nextBatchScan {S : Type} (B : BatchType S) (st : StateE)
    (existing : List (Nat × EntryE)) : ScanState S :=
  let st1 := prepState st existing.length
  scanLoop B st.config existing (st1.entries.drop st1.checked_request_count)
    (initScan B existing st1.checked_request_count)

/-- `State::next_batch` (queue.rs lines 315-544).  Returns the updated state
and the optional new batch `(batch_entries, batch)`; the whole result is
`none` when the Rust code would panic at `.expect("bug")`.  `now` is the
current instant, used by the waiting-time checks and the `batch_time`
stamp. -/
def nextBatch {S : Type} (B : BatchType S) (st : StateE)
    (existingOpt : Option (List (Nat × EntryE))) (now : Nat) :
    Option (StateE × Option (List (Nat × EntryE) × BatchE)) :=
  let existing := existingOpt.getD []
  let cfg := st.config
  if existing.length ≥ cfg.size_limit then some (st, none)
  else
    let st1 := prepState st existing.length
    if existing ≠ [] ∧
        (st1.entries.length ≤ st1.checked_request_count ∨
          (st1.buffer_contents_insufficient = true ∧
            nextEntryWaitingTooLong st1.entries now = false)) then
      some (st1, none)
    else
      let sc := nextBatchScan B st existing
      let entries2 := applyDrops st1.entries sc.indices_to_drop
      if sc.chosen_indices.length = 0 then
        some ({ st1 with entries := entries2,
                         checked_request_count := sc.checked_up_to_index }, none)
      else
        let st2 := { st1 with entries := entries2, checked_request_count := 0 }
        if sc.hit_prefill_weight_limit = false ∧ existing ≠ [] ∧
            nextEntryWaitingTooLong entries2 now = false ∧
            B.batch_weight sc.batch_stats sc.total_count < cfg.weight_limit / 2 then
          some ({ st2 with checked_request_count := sc.checked_up_to_index,
                           buffer_contents_insufficient := true }, none)
        else
          match buildBatch now sc.chosen_indices 0 entries2 [] [] with
          | none => none
          | some (entries3, reqs, bents) =>
            some ({ st2 with entries := entries3,
                             next_batch_id := st2.next_batch_id + 1,
                             buffer_contents_insufficient := false },
              some (bents, { id := st2.next_batch_id, requests := reqs, size := reqs.length }))

/-! ## infer.rs: response fan-out and error propagation -/

/-- `InferError` from infer.rs (payloads reduced to the message strings). -/
inductive InferErrorE where
  | generationError (msg : String)
  | overloaded
  | validationError (msg : String)
  | incompleteGeneration
  | templateError (msg : String)
deriving DecidableEq, Repr

/-- `InferStreamResponse` from infer.rs, together with the error case sent on
the same channel.  Token payloads are reduced to their ids. -/
inductive InferMsg where
  | prefill (tokens : List Nat)
  | intermediate (token : Nat) (top_tokens : List Nat)
  | ended (token : Nat) (top_tokens : List Nat) (generated_text : String)
      (queued : Nat) (start : Nat)
  | err (e : InferErrorE)
deriving DecidableEq, Repr

/-- A `Generation` returned by the backend. -/
structure GenerationE where
  request_id : Nat
  prefill_tokens : Option (List Nat)
  tokens : Option (List Nat)
  top_tokens : List (List Nat)
  generated_text : Option String
deriving DecidableEq, Repr

/-- The token loop of `send_responses` (infer.rs lines 648-692): `i` is the
`enumerate` index, `stopped` the running flag.  For each token, peek: the last
token with `generated_text` present becomes `End` (reading
`entry.batch_time.unwrap()`, whose panic is the `none` result); every other
token becomes `Intermediate`. -/
def sendLoop (g : GenerationE) (e : EntryE) :
    Nat → List Nat → Bool → Option (List InferMsg × Bool)
  | _, [], stopped => some ([], stopped)
  | i, tok :: rest, stopped =>
    let top := (g.top_tokens.get? i).getD []
    match g.generated_text, rest with
    | some gt, [] =>
      match e.batch_time with
      | none => none
      | some bt => some ([InferMsg.ended tok top gt e.queue_time bt], true)
    | _, _ =>
      match sendLoop g e (i + 1) rest stopped with
      | none => none
      | some (ms, st) => some (InferMsg.intermediate tok top :: ms, st)

/-- `send_responses` from infer.rs.  The result is the ordered list of
messages pushed onto this entry's channel, paired with the returned `stopped`
flag; `none` models a panic (`tokens.expect` or `batch_time.unwrap()`). -/
def sendResponses (g : GenerationE) (e : EntryE) : Option (List InferMsg × Bool) :=
  if e.disconnected then some ([], true)
  else
    match g.tokens with
    | none => none
    | some ts =>
      match sendLoop g e 0 ts false with
      | none => none
      | some (ms, stopped) =>
        some ((match g.prefill_tokens with
                | some p => [InferMsg.prefill p]
                | none => []) ++ ms, stopped)

/-- `IntMap` lookup by request id. -/
def findEntry (entries : List (Nat × EntryE)) (eid : Nat) : Option EntryE :=
  (entries.find? (fun p => p.1 = eid)).map (fun p => p.2)

/-- `IntMap::remove` (keys are unique in an `IntMap`). -/
def removeEntry (entries : List (Nat × EntryE)) (eid : Nat) : List (Nat × EntryE) :=
  entries.filter (fun p => p.1 ≠ eid)

/-- `filter_send_generations`: route every generation to its entry, collect
the sent messages tagged with the request id, and remove stopped entries.
`none` models the `expect` panics (unknown request id, or a panic inside
`send_responses`). -/
def filterSendGenerations (gens : List GenerationE) (entries : List (Nat × EntryE)) :
    Option (List (Nat × InferMsg) × List (Nat × EntryE)) :=
  gens.foldl
    (fun acc g =>
      match acc with
      | none => none
      | some (sent, es) =>
        match findEntry es g.request_id with
        | none => none
        | some e =>
          match sendResponses g e with
          | none => none
          | some (msgs, stopped) =>
            some (sent ++ msgs.map (fun m => (g.request_id, m)),
              if stopped then removeEntry es g.request_id else es))
    (some ([], entries))

/-- `CachedBatch` returned by the backend. -/
structure CachedBatchE where
  id : Nat
  request_ids : List Nat
  size : Nat
  max_tokens : Nat
deriving DecidableEq, Repr

/-- Calls issued to the backend client. -/
inductive ClientCall where
  | clearCache (id : Option Nat)
  | filterBatch (id : Nat) (kept : List Nat)
deriving DecidableEq, Repr

/-- `filter_batch` from infer.rs: `fr` is the backend's (successful) response
to a `filter_batch` call.  Returns the client calls issued and the resulting
cached batch. -/
def filterBatchE (fr : Nat → List Nat → Option CachedBatchE)
    (next_batch : Option CachedBatchE) (entries : List (Nat × EntryE)) :
    List ClientCall × Option CachedBatchE :=
  match next_batch with
  | none => ([], none)
  | some batch =>
    if batch.size = entries.length then ([], some batch)
    else
      let kept := batch.request_ids.filter (fun rid => entries.any (fun p => p.1 = rid))
      if kept = [] then ([ClientCall.clearCache (some batch.id)], none)
      else ([ClientCall.filterBatch batch.id kept], fr batch.id kept)

/-- `send_errors` from infer.rs: drain the entries map, sending each entry a
single `GenerationError` carrying the backend error's message. -/
def sendErrors (errMsg : String) (entries : List (Nat × EntryE)) :
    List (Nat × InferMsg) × List (Nat × EntryE) :=
  (entries.map (fun p => (p.1, InferMsg.err (InferErrorE.generationError errMsg))), [])

/-- Observable outcome of one `prefill`/`decode` call: backend client calls
issued on the error/filter path, messages sent to entry channels, the entries
map afterwards, and the returned cached batch. -/
structure StepOut where
  calls : List ClientCall
  sent : List (Nat × InferMsg)
  entries : List (Nat × EntryE)
  ret : Option CachedBatchE
deriving DecidableEq, Repr

/-- `prefill` from infer.rs (lines 468-507), over the backend's result `res`
for this batch.  `none` models a panic in the success path. -/
def prefillE (res : Except String (List GenerationE × Option CachedBatchE))
    (batchId : Nat) (entries : List (Nat × EntryE))
    (fr : Nat → List Nat → Option CachedBatchE) : Option StepOut :=
  match res with
  | Except.ok (gens, nb) =>
    match filterSendGenerations gens entries with
    | none => none
    | some (sent, entries1) =>
      let fb := filterBatchE fr nb entries1
      some { calls := fb.1, sent := sent, entries := entries1, ret := fb.2 }
  | Except.error errMsg =>
    let se := sendErrors errMsg entries
    some { calls := [ClientCall.clearCache (some batchId)], sent := se.1,
           entries := se.2, ret := none }

/-- `decode` from infer.rs (lines 510-553); on error the cache is cleared for
every batch id of the concatenated batches. -/
def decodeE (res : Except String (List GenerationE × Option CachedBatchE))
    (batchIds : List Nat) (entries : List (Nat × EntryE))
    (fr : Nat → List Nat → Option CachedBatchE) : Option StepOut :=
  match res with
  | Except.ok (gens, nb) =>
    match filterSendGenerations gens entries with
    | none => none
    | some (sent, entries1) =>
      let fb := filterBatchE fr nb entries1
      some { calls := fb.1, sent := sent, entries := entries1, ret := fb.2 }
  | Except.error errMsg =>
    let se := sendErrors errMsg entries
    some { calls := batchIds.map (fun i => ClientCall.clearCache (some i)), sent := se.1,
           entries := se.2, ret := none }

/-! ## Spec-side notions used to state the claims -/

/-- Projected members of a batch as the spec describes them: remaining output
`max_new_tokens - generated_tokens` and current input
`truncate + generated_tokens`. -/
def projMembers (l : List (Nat × EntryE)) : List (Nat × Nat) :=
  l.map (fun p => (p.2.max_new_tokens - p.2.generated_tokens, p.2.truncate + p.2.generated_tokens))

/-- Stated from the spec's words: the flash cost model's batch weight at a
future decode step `t` — members whose projected remaining output is at least
`t` are still present and each holds its current input plus `t` generated
tokens. -/
def specFlashFutureWeight (members : List (Nat × Nat)) (t : Nat) : Nat :=
  ((members.filter (fun m => t ≤ m.1)).map (fun m => m.2 + t)).sum

/-- Sum of the input-length components of btree records. -/
def sumIl (l : List (Nat × Nat × Nat)) : Nat := (l.map (fun x => x.2.1)).sum

/-- Remaining-output component of the `i`-th record of the descending tree. -/
def olAt (tree : List (Nat × Nat × Nat)) (i : Nat) : Nat := (tree.getD i (0, 0, 0)).1

/-- The value the claim attributes to tier `i` (rank `i + 1`) of the
descending tree: the accumulated input sum plus rank times the tier's
remaining output. -/
def tierValue (tree : List (Nat × Nat × Nat)) (i : Nat) : Nat :=
  sumIl (tree.take (i + 1)) + (i + 1) * olAt tree i

/-- The prefill statistics of a chosen list, each entry folded in with output
length `0`, exactly as the selection loop accumulates them. -/
def prefillFold {S : Type} (B : BatchType S) (chosen : List (Nat × Nat × EntryE)) : S :=
  chosen.foldl (fun s c => B.update_stats s c.2.2.truncate 0) B.dflt

/-- Whether a `next_batch` result carries a new batch. -/
def returnsBatch :
    Option (StateE × Option (List (Nat × EntryE) × BatchE)) → Bool
  | some (_, some _) => true
  | _ => false

/-- The `batch_entries` map of a `next_batch` result (empty if none). -/
def batchEntriesOf :
    Option (StateE × Option (List (Nat × EntryE) × BatchE)) → List (Nat × EntryE)
  | some (_, some (be, _)) => be
  | _ => []

/-- The queue contents after a `next_batch` call (empty on panic). -/
def entriesAfter :
    Option (StateE × Option (List (Nat × EntryE) × BatchE)) → List (Nat × EntryE)
  | some (st, _) => st.entries
  | none => []

def isPrefillMsg : InferMsg → Bool
  | InferMsg.prefill _ => true
  | _ => false

def isIntermediateMsg : InferMsg → Bool
  | InferMsg.intermediate _ _ => true
  | _ => false

def isEndMsg : InferMsg → Bool
  | InferMsg.ended _ _ _ _ _ => true
  | _ => false

/-! ## Concrete scenarios -/

/-- A connected entry with input 10 and 10 requested output tokens. -/
def entA1 : EntryE :=
  { truncate := 10, max_new_tokens := 10, generated_tokens := 0, disconnected := false,
    queue_time := 0, batch_time := none }

/-- Weight limit 5 — far below the 20 projected tokens of `entA1`. -/
def cfg1 : BatchingConfig := { size_limit := 10, weight_limit := 5, prefill_weight_limit := 0 }

def st1 : StateE :=
  { config := cfg1, entries := [(0, entA1)], next_id := 1, next_batch_id := 0,
    last_seen_batch_size := 0, checked_request_count := 0,
    buffer_contents_insufficient := false }

/-- A connected small entry. -/
def entC4 : EntryE :=
  { truncate := 1, max_new_tokens := 1, generated_tokens := 0, disconnected := false,
    queue_time := 0, batch_time := none }

/-- A cancelled (disconnected) entry behind it. -/
def entB4 : EntryE :=
  { truncate := 1, max_new_tokens := 1, generated_tokens := 0, disconnected := true,
    queue_time := 0, batch_time := none }

def st4 : StateE :=
  { config := { size_limit := 10, weight_limit := 1000, prefill_weight_limit := 0 },
    entries := [(0, entC4), (1, entB4)], next_id := 2, next_batch_id := 0,
    last_seen_batch_size := 0, checked_request_count := 0,
    buffer_contents_insufficient := false }

/-- Prefill weight limit 5 with an entry of input 10. -/
def cfg6 : BatchingConfig :=
  { size_limit := 10, weight_limit := 1000, prefill_weight_limit := 5 }

def ent6 : EntryE :=
  { truncate := 10, max_new_tokens := 1, generated_tokens := 0, disconnected := false,
    queue_time := 0, batch_time := none }

def cfg7 : BatchingConfig := { size_limit := 10, weight_limit := 5, prefill_weight_limit := 0 }

/-- An in-flight existing entry: 4+4 projected tokens, 1 already generated. -/
def entE7 : EntryE :=
  { truncate := 4, max_new_tokens := 4, generated_tokens := 1, disconnected := false,
    queue_time := 0, batch_time := some 0 }

/-- The blocking giant. -/
def entA7 : EntryE :=
  { truncate := 10, max_new_tokens := 10, generated_tokens := 0, disconnected := false,
    queue_time := 0, batch_time := none }

/-- The small entry admitted past the giant. -/
def entB7 : EntryE :=
  { truncate := 0, max_new_tokens := 0, generated_tokens := 0, disconnected := false,
    queue_time := 0, batch_time := none }

def ex7 : List (Nat × EntryE) := [(100, entE7)]

def l7 : List (Nat × EntryE) := [(0, entA7), (1, entB7)]

/-! ## Claims settled by concrete evaluation -/

/-- C1: the claimed invariant — no future decode step of a batch constructed
by `next_batch` exceeds `weight_limit` — fails on the code.  With the flash
cost model, `weight_limit = 5` and a single queued entry of input 10 and 10
requested output tokens, `next_batch` admits the entry without ever consulting
the granular analysis (the cheap gate tests the statistics *without* the
candidate), and the batch it returns reaches flash weight 20 > 5 at the
decode step with 10 remaining output tokens. -/
theorem c1_weight_bound_violated :
    returnsBatch (nextBatch FlashBatch st1 none 0) = true ∧
    specFlashFutureWeight (projMembers ([] ++ batchEntriesOf (nextBatch FlashBatch st1 none 0)))
        10 = 20 ∧
    20 > cfg1.weight_limit := by decide

/-- C2: the claim that the granular btree analysis is consulted exactly when
the *tentative* statistics (including the candidate) exceed `weight_limit`
fails on the code: the code tests `batch_weight(&batch_stats, total+1)` with
the statistics *before* the candidate.  Here the tentative weight is 20 > 5,
yet the scan never allocates the btree (so `exceeds_weight` is never
consulted) and accepts the candidate. -/
theorem c2_tentative_weight_gate_skipped :
    FlashBatch.batch_weight
        (FlashBatch.update_stats (computeStats FlashBatch []) 10 10) 1 > cfg1.weight_limit ∧
    (nextBatchScan FlashBatch st1 []).btree = none ∧
    (nextBatchScan FlashBatch st1 []).chosen_indices.length = 1 := by decide

/-- C4: the claim that exactly the scanned disconnected entries are removed
from the waiting queue fails on the code.  The scan records
`indices_to_drop.push(queue_index)` *after* incrementing `queue_index`, so for
the disconnected entry at deque position 1 it attempts `remove(2)`, which is
out of range and silently removes nothing: after the call, the disconnected
entry `(1, entB4)` is still in the queue while the connected entry was
batched. -/
theorem c4_disconnected_entry_left_in_queue :
    returnsBatch (nextBatch FlashBatch st4 none 0) = true ∧
    entriesAfter (nextBatch FlashBatch st4 none 0) = [(1, entB4)] ∧
    entB4.disconnected = true := by decide

/-- C3 counterexample: the claim says `FlashBatch::exceeds_weight` checks every
tier with `remaining_output ≥ current_output_len`; on the tree `[(5, 100, 0)]`
with limit 50 and `current_output_len = 3`, the single tier has remaining
output `5 ≥ 3` and value `100 + 1·5 = 105 > 50`, so the claim requires `true`,
but the function returns `false` (the code checks only tiers with
`remaining_output ≤ current_output_len`). -/
theorem c3_ge_tier_counterexample :
    flashExceeds [(5, 100, 0)] 50 3 = false ∧
    3 ≤ olAt [(5, 100, 0)] 0 ∧ tierValue [(5, 100, 0)] 0 > 50 ∧
    0 < ([(5, 100, 0)] : List (Nat × Nat × Nat)).length := by decide

/-- C6 counterexample: a candidate whose tentative prefill weight (10) exceeds
`prefill_weight_limit = 5` is scanned while the btree was never allocated; the
claim says `hit_prefill_weight_limit` must be set regardless, but the code
sets it only inside `if let Some(tree) = btree`, so the flag stays `false`
(the candidate is still skipped and the cutoff still installed). -/
theorem c6_flag_counterexample :
    FlashBatch.prefill_weight (FlashBatch.update_stats FlashBatch.dflt 10 0) 1 >
        cfg6.prefill_weight_limit ∧
    (scanLoop FlashBatch cfg6 [] [(0, ent6)] (initScan FlashBatch [] 0)).btree = none ∧
    (scanLoop FlashBatch cfg6 [] [(0, ent6)]
        (initScan FlashBatch [] 0)).hit_prefill_weight_limit = false ∧
    (scanLoop FlashBatch cfg6 [] [(0, ent6)]
        (initScan FlashBatch [] 0)).time_cutoff = some CUTOFF_DURATION ∧
    (scanLoop FlashBatch cfg6 [] [(0, ent6)] (initScan FlashBatch [] 0)).chosen_indices = [] := by
  decide

/-! ## C3: characterization of the flash exceeds-weight walk -/

theorem olAt_cons_zero (a : Nat × Nat × Nat) (l : List (Nat × Nat × Nat)) :
    olAt (a :: l) 0 = a.1 := rfl

theorem olAt_cons_succ (a : Nat × Nat × Nat) (l : List (Nat × Nat × Nat)) (n : Nat) :
    olAt (a :: l) (n + 1) = olAt l n := rfl

theorem sumIl_cons (a : Nat × Nat × Nat) (l : List (Nat × Nat × Nat)) :
    sumIl (a :: l) = a.2.1 + sumIl l := by
  simp [sumIl]

theorem flashExceedsGo_spec (l : List (Nat × Nat × Nat)) (maxW col : Nat) :
    ∀ bs inSum : Nat,
      flashExceedsGo maxW col bs inSum l = true ↔
        ∃ i, i < l.length ∧ olAt l i ≤ col ∧
          inSum + sumIl (l.take (i + 1)) + (bs + i + 1) * olAt l i > maxW := by
  induction l with
  | nil => intro bs inSum; simp [flashExceedsGo]
  | cons x rest ih =>
    intro bs inSum
    obtain ⟨ol, il, xid⟩ := x
    simp only [flashExceedsGo]
    split
    case isTrue h =>
      simp only [true_iff]
      refine ⟨0, by simp, ?_, ?_⟩
      · simpa [olAt] using h.1
      · simpa [olAt, sumIl] using h.2
    case isFalse h =>
      rw [ih (bs + 1) (inSum + il)]
      constructor
      · rintro ⟨i, hi, h1, h2⟩
        refine ⟨i + 1, by simpa using hi, by simpa [olAt_cons_succ] using h1, ?_⟩
        rw [List.take_succ_cons, sumIl_cons, olAt_cons_succ]
        have hc : bs + (i + 1) + 1 = bs + 1 + i + 1 := by omega
        rw [hc]
        dsimp only
        omega
      · rintro ⟨i, hi, h1, h2⟩
        match i with
        | 0 =>
          exfalso
          apply h
          refine ⟨by simpa [olAt] using h1, ?_⟩
          simpa [olAt, sumIl] using h2
        | j + 1 =>
          refine ⟨j, by simpa using hi, by simpa [olAt_cons_succ] using h1, ?_⟩
          rw [List.take_succ_cons, sumIl_cons, olAt_cons_succ] at h2
          have hc : bs + 1 + j + 1 = bs + (j + 1) + 1 := by omega
          rw [hc]
          dsimp only at h2 ⊢
          omega

/-- C3 (amended): `FlashBatch::exceeds_weight` walks the tuple multiset in
descending `remaining_output` order accumulating the input sum, and returns
`true` if and only if some tier with `remaining_output ≤ current_output_len`
has `in_sum + tier_rank · remaining_output` above `max_total_weight` (the
claim's `≥` is reversed: tiers *above* the current output length were checked
when their own entries were admitted and are skipped here). -/
theorem c3_flash_exceeds_iff_le_tier (tree : List (Nat × Nat × Nat)) (maxW col : Nat) :
    flashExceeds tree maxW col = true ↔
      ∃ i, i < tree.length ∧ olAt tree i ≤ col ∧ tierValue tree i > maxW := by
  have h := flashExceedsGo_spec tree maxW col 0 0
  simpa [flashExceeds, tierValue] using h

/-! ## C8: backend errors abort the whole batch -/

/-- C8: when the backend's prefill (or decode) call fails, `clear_cache` is
invoked for every affected batch id, every entry of the current map is sent a
single `Err(GenerationError(msg))` carrying the backend error's message, the
map is drained, and the function returns `None`. -/
theorem c8_backend_error_aborts (errMsg : String) (batchId : Nat) (batchIds : List Nat)
    (entries : List (Nat × EntryE)) (fr : Nat → List Nat → Option CachedBatchE) :
    prefillE (Except.error errMsg) batchId entries fr =
      some { calls := [ClientCall.clearCache (some batchId)],
             sent := entries.map
               (fun p => (p.1, InferMsg.err (InferErrorE.generationError errMsg))),
             entries := [], ret := none } ∧
    decodeE (Except.error errMsg) batchIds entries fr =
      some { calls := batchIds.map (fun i => ClientCall.clearCache (some i)),
             sent := entries.map
               (fun p => (p.1, InferMsg.err (InferErrorE.generationError errMsg))),
             entries := [], ret := none } :=
  ⟨rfl, rfl⟩

/-! ## C9: per-entry message ordering of send_responses -/

theorem sendLoop_spec (g : GenerationE) (e : EntryE) (bt : Nat)
    (hbt : e.batch_time = some bt) :
    ∀ (ts : List Nat) (i : Nat), ∃ ms : List InferMsg,
      sendLoop g e i ts false = some (ms, g.generated_text.isSome && !ts.isEmpty) ∧
      ms.length = ts.length ∧
      (∀ m ∈ ms, isPrefillMsg m = false) ∧
      (∀ m ∈ ms.dropLast, isIntermediateMsg m = true) ∧
      (∀ m, ms.getLast? = some m → (isEndMsg m = true ↔ g.generated_text.isSome = true)) ∧
      ((∃ m ∈ ms, isEndMsg m = true) ↔ (g.generated_text.isSome = true ∧ ts ≠ [])) := by
  intro ts
  induction ts with
  | nil =>
    intro i
    exact ⟨[], by simp [sendLoop], by simp, by simp, by simp, by simp, by simp⟩
  | cons t rest ih =>
    intro i
    match rest, ih with
    | [], _ =>
      cases hgt : g.generated_text with
      | some gt =>
        refine ⟨[InferMsg.ended t ((g.top_tokens.get? i).getD []) gt e.queue_time bt],
          ?_, by simp, by simp [isPrefillMsg], by simp, ?_, ?_⟩
        · simp [sendLoop, hgt, hbt]
        · intro m hm
          simp at hm
          subst hm
          simp [isEndMsg, hgt]
        · simp [isEndMsg, hgt]
      | none =>
        refine ⟨[InferMsg.intermediate t ((g.top_tokens.get? i).getD [])],
          ?_, by simp, by simp [isPrefillMsg], by simp, ?_, ?_⟩
        · simp [sendLoop, hgt]
        · intro m hm
          simp at hm
          subst hm
          simp [isEndMsg, hgt]
        · simp [isEndMsg, hgt]
    | r2 :: rs, ih =>
      obtain ⟨ms, hms, hlen, hpre, hmid, hlast, hend⟩ := ih (i + 1)
      cases ms with
      | nil => simp at hlen
      | cons m0 ms1 =>
        refine ⟨InferMsg.intermediate t ((g.top_tokens.get? i).getD []) :: m0 :: ms1,
          ?_, by simpa using hlen, ?_, ?_, ?_, ?_⟩
        · cases hgt : g.generated_text with
          | some gt => simp only [sendLoop, hgt] at hms ⊢; rw [hms]; simp [hgt]
          | none => simp only [sendLoop, hgt] at hms ⊢; rw [hms]; simp [hgt]
        · intro m hm
          rcases List.mem_cons.mp hm with h1 | h1
          · subst h1; simp [isPrefillMsg]
          · exact hpre m h1
        · intro m hm
          rw [List.dropLast_cons₂] at hm
          rcases List.mem_cons.mp hm with h1 | h1
          · subst h1; simp [isIntermediateMsg]
          · exact hmid m h1
        · intro m hm
          rw [List.getLast?_cons_cons] at hm
          exact hlast m hm
        · constructor
          · rintro ⟨m, hm, hmend⟩
            rcases List.mem_cons.mp hm with h1 | h1
            · subst h1; simp [isEndMsg] at hmend
            · exact ⟨(hend.mp ⟨m, h1, hmend⟩).1, by simp⟩
          · rintro ⟨h1, _⟩
            obtain ⟨m, hm, hmend⟩ := hend.mpr ⟨h1, by simp⟩
            exact ⟨m, List.mem_cons_of_mem _ hm, hmend⟩

/-- C9: for every generation processed by `send_responses` on an open channel
(with the backend's token list present and the entry already stamped with a
batch time), the messages sent are an optional `Prefill` first, then one
message per token: every token except the last is `Intermediate`, the last is
`End` exactly when `generated_text` is present, no message follows the `End`,
and the returned flag is `true` exactly when an `End` was sent (on a closed
channel nothing is sent and `true` is returned). -/
theorem c9_send_responses_stream_shape (g : GenerationE) (e : EntryE) (ts : List Nat)
    (bt : Nat) (hopen : e.disconnected = false) (hts : g.tokens = some ts)
    (hbt : e.batch_time = some bt) :
    ∃ tms : List InferMsg,
      sendResponses g e =
        some ((match g.prefill_tokens with
                | some p => [InferMsg.prefill p]
                | none => []) ++ tms,
          g.generated_text.isSome && !ts.isEmpty) ∧
      tms.length = ts.length ∧
      (∀ m ∈ tms, isPrefillMsg m = false) ∧
      (∀ m ∈ tms.dropLast, isIntermediateMsg m = true) ∧
      (∀ m, tms.getLast? = some m → (isEndMsg m = true ↔ g.generated_text.isSome = true)) ∧
      ((g.generated_text.isSome && !ts.isEmpty) = true ↔ ∃ m ∈ tms, isEndMsg m = true) := by
  obtain ⟨ms, hms, hlen, hpre, hmid, hlast, hend⟩ := sendLoop_spec g e bt hbt ts 0
  refine ⟨ms, ?_, hlen, hpre, hmid, hlast, ?_⟩
  · simp only [sendResponses, hopen, Bool.false_eq_true, if_false, hts]
    rw [hms]
  · rw [hend]
    cases hgt : g.generated_text <;> cases ts <;> simp [hgt]

/-- Concrete generation used to witness C9. -/
def g9 : GenerationE :=
  { request_id := 0, prefill_tokens := some [5], tokens := some [7, 8],
    top_tokens := [], generated_text := some "ab" }

/-- Concrete entry used to witness C9. -/
def e9 : EntryE :=
  { truncate := 1, max_new_tokens := 2, generated_tokens := 0, disconnected := false,
    queue_time := 3, batch_time := some 4 }

theorem c9_send_responses_stream_shape_witness :
    ∃ tms : List InferMsg,
      sendResponses g9 e9 =
        some ((match g9.prefill_tokens with
                | some p => [InferMsg.prefill p]
                | none => []) ++ tms,
          g9.generated_text.isSome && !([7, 8] : List Nat).isEmpty) ∧
      tms.length = ([7, 8] : List Nat).length ∧
      (∀ m ∈ tms, isPrefillMsg m = false) ∧
      (∀ m ∈ tms.dropLast, isIntermediateMsg m = true) ∧
      (∀ m, tms.getLast? = some m → (isEndMsg m = true ↔ g9.generated_text.isSome = true)) ∧
      ((g9.generated_text.isSome && !([7, 8] : List Nat).isEmpty) = true ↔
        ∃ m ∈ tms, isEndMsg m = true) :=
  c9_send_responses_stream_shape g9 e9 [7, 8] 4 rfl rfl rfl

/-! ## C6 (amended): prefill-weight skip behaviour -/

/-- The btree as the prefill gate sees it for a candidate that survived the
combined-weight gate: freshly allocated from existing ∪ chosen ∪ candidate
when the cheap gate fired (queue.rs lines 400-419), otherwise the running
btree — if any — kept updated with the candidate (lines 430-433). -/
def prefillGateBtree {S : Type} (B : BatchType S) (cfg : BatchingConfig)
    (ex : List (Nat × EntryE)) (s : ScanState S) (eid : Nat) (e : EntryE) :
    Option (List (Nat × Nat × Nat)) :=
  if B.batch_weight s.batch_stats (s.total_count + 1) > cfg.weight_limit then
    some (treeInsert (e.max_new_tokens, e.truncate, eid)
      (match s.btree with
        | some t => t
        | none => buildTree ex s.chosen_indices))
  else
    Option.map (treeInsert (e.max_new_tokens, e.truncate, eid)) s.btree

/-- C6 (amended): when `prefill_weight_limit > 0` and a scanned candidate
reaches the prefill gate (it was not rejected by the combined-weight gate's
granular analysis) with a tentative prefill weight above the limit, the
candidate is skipped and the time cutoff installed if not already set, but
`hit_prefill_weight_limit` is set to `true` only when a btree is present at
the prefill gate — allocated by this candidate's own weight consultation or
an earlier one; with no btree the flag keeps its previous value. -/
theorem c6_prefill_skip_sets_flag_only_with_btree {S : Type} (B : BatchType S)
    (cfg : BatchingConfig) (ex : List (Nat × EntryE)) (s : ScanState S) (eid : Nat)
    (e : EntryE)
    (hbr : cutoffExceeded s.time_cutoff e.queue_time = false)
    (hconn : e.disconnected = false)
    (hnoskip : B.batch_weight s.batch_stats (s.total_count + 1) > cfg.weight_limit →
      B.exceeds_weight (treeInsert (e.max_new_tokens, e.truncate, eid)
        (match s.btree with
          | some t => t
          | none => buildTree ex s.chosen_indices)) cfg.weight_limit
        e.max_new_tokens = false)
    (hpl : 0 < cfg.prefill_weight_limit)
    (hpw : B.prefill_weight (B.update_stats s.prefill_stats e.truncate 0)
        (s.chosen_indices.length + 1) > cfg.prefill_weight_limit) :
    (scanStep B cfg ex s (eid, e)).1.hit_prefill_weight_limit =
      (s.hit_prefill_weight_limit || (prefillGateBtree B cfg ex s eid e).isSome) ∧
    (scanStep B cfg ex s (eid, e)).1.chosen_indices = s.chosen_indices ∧
    (scanStep B cfg ex s (eid, e)).1.time_cutoff =
      some (s.time_cutoff.getD (e.queue_time + CUTOFF_DURATION)) ∧
    (scanStep B cfg ex s (eid, e)).2 = false := by
  by_cases hw : B.batch_weight s.batch_stats (s.total_count + 1) > cfg.weight_limit
  · have hex := hnoskip hw
    cases hb : s.btree with
    | none =>
      simp only [hb] at hex
      simp [scanStep, scanAccept, prefillGateBtree, hbr, hconn, hw, hb, hex, hpl, hpw]
    | some t =>
      simp only [hb] at hex
      simp [scanStep, scanAccept, prefillGateBtree, hbr, hconn, hw, hb, hex, hpl, hpw]
  · cases hb : s.btree with
    | none => simp [scanStep, scanAccept, prefillGateBtree, hbr, hconn, hw, hb, hpl, hpw]
    | some t => simp [scanStep, scanAccept, prefillGateBtree, hbr, hconn, hw, hb, hpl, hpw]

/-- Witness scenario for the amended C6, exercising the case where the btree
is allocated by the candidate's own weight consultation: the existing batch
already weighs 30 > 25, so the cheap gate fires, the granular analysis passes
the candidate, and the prefill gate (limit 1, tentative weight 2) then skips
it with the flag set. -/
def cfg6b : BatchingConfig :=
  { size_limit := 10, weight_limit := 25, prefill_weight_limit := 1 }

def entE6b : EntryE :=
  { truncate := 15, max_new_tokens := 15, generated_tokens := 0, disconnected := false,
    queue_time := 0, batch_time := some 0 }

def ex6b : List (Nat × EntryE) := [(100, entE6b)]

def ent6b : EntryE :=
  { truncate := 2, max_new_tokens := 0, generated_tokens := 0, disconnected := false,
    queue_time := 0, batch_time := none }

theorem c6_prefill_skip_sets_flag_only_with_btree_witness :
    (scanStep FlashBatch cfg6b ex6b (initScan FlashBatch ex6b 0)
        (0, ent6b)).1.hit_prefill_weight_limit =
      ((initScan FlashBatch ex6b 0).hit_prefill_weight_limit ||
        (prefillGateBtree FlashBatch cfg6b ex6b (initScan FlashBatch ex6b 0)
          0 ent6b).isSome) ∧
    (scanStep FlashBatch cfg6b ex6b (initScan FlashBatch ex6b 0)
        (0, ent6b)).1.chosen_indices =
      (initScan FlashBatch ex6b 0).chosen_indices ∧
    (scanStep FlashBatch cfg6b ex6b (initScan FlashBatch ex6b 0) (0, ent6b)).1.time_cutoff =
      some ((initScan FlashBatch ex6b 0).time_cutoff.getD
        (ent6b.queue_time + CUTOFF_DURATION)) ∧
    (scanStep FlashBatch cfg6b ex6b (initScan FlashBatch ex6b 0) (0, ent6b)).2 = false :=
  c6_prefill_skip_sets_flag_only_with_btree FlashBatch cfg6b ex6b
    (initScan FlashBatch ex6b 0) 0 ent6b (by decide) (by decide) (by decide) (by decide)
    (by decide)

/-! ## Step lemmas about the selection loop -/

/-- A cutoff, once set, is never changed by a loop iteration
(`get_or_insert_with`). -/
theorem scanStep_cutoff_some {S : Type} (B : BatchType S) (cfg : BatchingConfig)
    (ex : List (Nat × EntryE)) (s : ScanState S) (x : Nat × EntryE) (t : Nat)
    (h : s.time_cutoff = some t) :
    (scanStep B cfg ex s x).1.time_cutoff = some t := by
  simp only [scanStep, scanAccept, scanCommit]
  split <;> (try split) <;> (try split) <;> (try split) <;> (try split) <;> (try split) <;>
    (try split)
  all_goals simp [h]

/-- With no cutoff set, an iteration leaves it unset or installs the scanned
entry's queue time plus `CUTOFF_DURATION`. -/
theorem scanStep_cutoff_new {S : Type} (B : BatchType S) (cfg : BatchingConfig)
    (ex : List (Nat × EntryE)) (s : ScanState S) (x : Nat × EntryE)
    (h : s.time_cutoff = none) :
    (scanStep B cfg ex s x).1.time_cutoff = none ∨
    (scanStep B cfg ex s x).1.time_cutoff = some (x.2.queue_time + CUTOFF_DURATION) := by
  simp only [scanStep, scanAccept, scanCommit]
  split <;> (try split) <;> (try split) <;> (try split) <;> (try split) <;> (try split) <;>
    (try split)
  all_goals simp [h]

/-- An iteration that advanced the checked cursor without choosing the entry
went through one of the two skip branches, both of which install the cutoff
(keeping an existing one). -/
theorem scanStep_skip {S : Type} (B : BatchType S) (cfg : BatchingConfig)
    (ex : List (Nat × EntryE)) (s : ScanState S) (x : Nat × EntryE)
    (h1 : (scanStep B cfg ex s x).1.checked_up_to_index = s.checked_up_to_index + 1)
    (h2 : (scanStep B cfg ex s x).1.chosen_indices = s.chosen_indices) :
    (scanStep B cfg ex s x).1.time_cutoff =
      some (s.time_cutoff.getD (x.2.queue_time + CUTOFF_DURATION)) := by
  revert h1 h2
  simp only [scanStep, scanAccept, scanCommit]
  split <;> (try split) <;> (try split) <;> (try split) <;> (try split) <;> (try split) <;>
    (try split)
  all_goals intro h1 h2
  all_goals dsimp only at h1 h2 ⊢
  all_goals first
    | rfl
    | exact absurd h1 (by omega)
    | (exfalso; have hl := congrArg List.length h2; simp at hl)

/-- An iteration that changed the chosen list did not break at the loop head,
so the scanned entry's queue time is within any installed cutoff. -/
theorem scanStep_chosen_changed {S : Type} (B : BatchType S) (cfg : BatchingConfig)
    (ex : List (Nat × EntryE)) (s : ScanState S) (x : Nat × EntryE)
    (h : (scanStep B cfg ex s x).1.chosen_indices ≠ s.chosen_indices)
    (t : Nat) (hc : s.time_cutoff = some t) : x.2.queue_time ≤ t := by
  by_contra hqt
  push_neg at hqt
  apply h
  simp [scanStep, cutoffExceeded, hc, hqt]

/-- Once halted, the fold of steps is frozen. -/
theorem scanSteps_halted {S : Type} (B : BatchType S) (cfg : BatchingConfig)
    (ex : List (Nat × EntryE)) (l : List (Nat × EntryE)) (s : ScanState S) :
    scanSteps B cfg ex l (s, true) = (s, true) := by
  induction l with
  | nil => rfl
  | cons y rest ih =>
    have hy : scanStepH B cfg ex (s, true) y = (s, true) := rfl
    simp only [scanSteps, List.foldl_cons, hy]
    exact ih

/-- The recursive selection loop agrees with the halt-aware fold of its body. -/
theorem scanLoop_eq_scanSteps {S : Type} (B : BatchType S) (cfg : BatchingConfig)
    (ex : List (Nat × EntryE)) (l : List (Nat × EntryE)) (s : ScanState S) :
    scanLoop B cfg ex l s = (scanSteps B cfg ex l (s, false)).1 := by
  induction l generalizing s with
  | nil => rfl
  | cons x rest ih =>
    cases hs : scanStep B cfg ex s x with
    | mk s1 halted =>
      have hh : scanStepH B cfg ex (s, false) x = (s1, halted) := by
        simp [scanStepH, hs]
      cases halted with
      | true =>
        simp only [scanLoop, hs, scanSteps, List.foldl_cons, hh]
        rw [show List.foldl (scanStepH B cfg ex) (s1, true) rest =
          scanSteps B cfg ex rest (s1, true) from rfl, scanSteps_halted]
      | false =>
        simp only [scanLoop, hs, scanSteps, List.foldl_cons, hh]
        exact ih s1

theorem scanAt_zero {S : Type} (B : BatchType S) (cfg : BatchingConfig)
    (ex : List (Nat × EntryE)) (l : List (Nat × EntryE)) (s0 : ScanState S) :
    scanAt B cfg ex l s0 0 = (s0, false) := rfl

theorem scanAt_succ_lt {S : Type} {B : BatchType S} {cfg : BatchingConfig}
    {ex : List (Nat × EntryE)} {l : List (Nat × EntryE)} {s0 : ScanState S} {m : Nat}
    (_hm : m < l.length) (x : Nat × EntryE) (hx : l.get? m = some x) :
    scanAt B cfg ex l s0 (m + 1) = scanStepH B cfg ex (scanAt B cfg ex l s0 m) x := by
  have hgx : l[m]? = some x := by rw [← List.get?_eq_getElem?]; exact hx
  have ht : l.take (m + 1) = l.take m ++ [x] := by
    rw [List.take_succ, hgx]
    rfl
  simp [scanAt, scanSteps, ht, List.foldl_append]

theorem scanAt_succ_ge {S : Type} {B : BatchType S} {cfg : BatchingConfig}
    {ex : List (Nat × EntryE)} {l : List (Nat × EntryE)} {s0 : ScanState S} {m : Nat}
    (hm : l.length ≤ m) :
    scanAt B cfg ex l s0 (m + 1) = scanAt B cfg ex l s0 m := by
  rw [scanAt, scanAt, List.take_of_length_le hm,
    List.take_of_length_le (hm.trans (Nat.le_succ m))]

theorem scanAt_succ_frozen {S : Type} {B : BatchType S} {cfg : BatchingConfig}
    {ex : List (Nat × EntryE)} {l : List (Nat × EntryE)} {s0 : ScanState S} {m : Nat}
    (hm : (scanAt B cfg ex l s0 m).2 = true) :
    scanAt B cfg ex l s0 (m + 1) = scanAt B cfg ex l s0 m := by
  by_cases hlen : m < l.length
  · obtain ⟨x, hx⟩ : ∃ x, l.get? m = some x := ⟨_, List.get?_eq_get hlen⟩
    rw [scanAt_succ_lt hlen x hx]
    simp [scanStepH, hm]
  · exact scanAt_succ_ge (le_of_not_lt hlen)

theorem scanAt_succ_step {S : Type} {B : BatchType S} {cfg : BatchingConfig}
    {ex : List (Nat × EntryE)} {l : List (Nat × EntryE)} {s0 : ScanState S} {m : Nat}
    (hlen : m < l.length) (x : Nat × EntryE) (hx : l.get? m = some x)
    (hh : (scanAt B cfg ex l s0 m).2 = false) :
    scanAt B cfg ex l s0 (m + 1) = scanStep B cfg ex (scanAt B cfg ex l s0 m).1 x := by
  rw [scanAt_succ_lt hlen x hx]
  simp [scanStepH, hh]

/-- Any installed cutoff originates from an actually scanned entry as its
queue time plus `CUTOFF_DURATION`. -/
theorem scanAt_cutoff_origin {S : Type} (B : BatchType S) (cfg : BatchingConfig)
    (ex : List (Nat × EntryE)) (l : List (Nat × EntryE)) (s0 : ScanState S)
    (h0 : s0.time_cutoff = none) :
    ∀ m t : Nat, (scanAt B cfg ex l s0 m).1.time_cutoff = some t →
      ∃ j x, j < m ∧ l.get? j = some x ∧ t = x.2.queue_time + CUTOFF_DURATION := by
  intro m
  induction m with
  | zero =>
    intro t ht
    rw [scanAt_zero] at ht
    simp [h0] at ht
  | succ m ih =>
    intro t ht
    by_cases hlen : m < l.length
    · cases hh : (scanAt B cfg ex l s0 m).2 with
      | true =>
        rw [scanAt_succ_frozen hh] at ht
        obtain ⟨j, x, hj, hx, he⟩ := ih t ht
        exact ⟨j, x, Nat.lt_succ_of_lt hj, hx, he⟩
      | false =>
        obtain ⟨x, hx⟩ : ∃ x, l.get? m = some x := ⟨_, List.get?_eq_get hlen⟩
        rw [scanAt_succ_step hlen x hx hh] at ht
        cases hc : (scanAt B cfg ex l s0 m).1.time_cutoff with
        | some t0 =>
          rw [scanStep_cutoff_some B cfg ex _ x t0 hc] at ht
          have ht0 : t0 = t := by injection ht
          obtain ⟨j, y, hj, hy, he⟩ := ih t (by rw [hc, ht0])
          exact ⟨j, y, Nat.lt_succ_of_lt hj, hy, he⟩
        | none =>
          rcases scanStep_cutoff_new B cfg ex _ x hc with hn | hn
          · rw [hn] at ht
            exact absurd ht (by simp)
          · rw [hn] at ht
            have he : x.2.queue_time + CUTOFF_DURATION = t := by injection ht
            exact ⟨m, x, Nat.lt_succ_self m, hx, he.symm⟩
    · rw [scanAt_succ_ge (le_of_not_lt hlen)] at ht
      obtain ⟨j, x, hj, hx, he⟩ := ih t ht
      exact ⟨j, x, Nat.lt_succ_of_lt hj, hx, he⟩

/-- An installed cutoff persists through all later iterations. -/
theorem scanAt_cutoff_persist {S : Type} (B : BatchType S) (cfg : BatchingConfig)
    (ex : List (Nat × EntryE)) (l : List (Nat × EntryE)) (s0 : ScanState S) (t : Nat)
    (m n : Nat) (hmn : m ≤ n)
    (h : (scanAt B cfg ex l s0 m).1.time_cutoff = some t) :
    (scanAt B cfg ex l s0 n).1.time_cutoff = some t := by
  induction n, hmn using Nat.le_induction with
  | base => exact h
  | succ n hmn ih =>
    by_cases hlen : n < l.length
    · cases hh : (scanAt B cfg ex l s0 n).2 with
      | true =>
        rw [scanAt_succ_frozen hh]
        exact ih
      | false =>
        obtain ⟨x, hx⟩ : ∃ x, l.get? n = some x := ⟨_, List.get?_eq_get hlen⟩
        rw [scanAt_succ_step hlen x hx hh]
        exact scanStep_cutoff_some B cfg ex _ x t ih
    · rw [scanAt_succ_ge (le_of_not_lt hlen)]
      exact ih

/-! ## C7: the cutoff bound between skipped and later admitted entries -/

/-- C7: during one selection scan (cutoff initially unset, queue times
non-decreasing along the scanned range), if the entry at position `j` was
scanned but skipped for weight or prefill-weight reasons (its iteration
advanced the checked cursor without choosing it) and the entry at a later
position `k` was admitted (its iteration extended the chosen list), then the
admitted entry's queue time is at most the skipped entry's queue time plus
`CUTOFF_DURATION`. -/
theorem c7_cutoff_bound {S : Type} (B : BatchType S) (cfg : BatchingConfig)
    (ex : List (Nat × EntryE)) (l : List (Nat × EntryE)) (s0 : ScanState S)
    (h0 : s0.time_cutoff = none)
    (hmono : ∀ (i j : Nat) (a b : Nat × EntryE), i ≤ j → l.get? i = some a →
      l.get? j = some b → a.2.queue_time ≤ b.2.queue_time)
    (j k : Nat) (hjk : j < k) (a b : Nat × EntryE)
    (hja : l.get? j = some a) (hkb : l.get? k = some b)
    (hskip : (scanAt B cfg ex l s0 (j + 1)).1.checked_up_to_index =
        (scanAt B cfg ex l s0 j).1.checked_up_to_index + 1 ∧
      (scanAt B cfg ex l s0 (j + 1)).1.chosen_indices =
        (scanAt B cfg ex l s0 j).1.chosen_indices)
    (hadm : (scanAt B cfg ex l s0 (k + 1)).1.chosen_indices ≠
        (scanAt B cfg ex l s0 k).1.chosen_indices) :
    b.2.queue_time ≤ a.2.queue_time + CUTOFF_DURATION := by
  have hjlen : j < l.length := by
    by_contra hcon
    rw [List.get?_eq_none.mpr (le_of_not_lt hcon)] at hja
    exact Option.noConfusion hja
  have hklen : k < l.length := by
    by_contra hcon
    rw [List.get?_eq_none.mpr (le_of_not_lt hcon)] at hkb
    exact Option.noConfusion hkb
  have hnhj : (scanAt B cfg ex l s0 j).2 = false := by
    cases hh : (scanAt B cfg ex l s0 j).2 with
    | false => rfl
    | true =>
      exfalso
      rw [scanAt_succ_frozen hh] at hskip
      exact absurd hskip.1 (by omega)
  have hstepj := scanAt_succ_step hjlen a hja hnhj
  have hskip1 : (scanStep B cfg ex (scanAt B cfg ex l s0 j).1 a).1.checked_up_to_index =
      (scanAt B cfg ex l s0 j).1.checked_up_to_index + 1 := by
    rw [← hstepj]
    exact hskip.1
  have hskip2 : (scanStep B cfg ex (scanAt B cfg ex l s0 j).1 a).1.chosen_indices =
      (scanAt B cfg ex l s0 j).1.chosen_indices := by
    rw [← hstepj]
    exact hskip.2
  have hcut : (scanAt B cfg ex l s0 (j + 1)).1.time_cutoff =
      some ((scanAt B cfg ex l s0 j).1.time_cutoff.getD
        (a.2.queue_time + CUTOFF_DURATION)) := by
    rw [hstepj]
    exact scanStep_skip B cfg ex _ a hskip1 hskip2
  obtain ⟨j2, x2, hj2, hx2, he2⟩ := scanAt_cutoff_origin B cfg ex l s0 h0 (j + 1) _ hcut
  have hpk : (scanAt B cfg ex l s0 k).1.time_cutoff =
      some ((scanAt B cfg ex l s0 j).1.time_cutoff.getD
        (a.2.queue_time + CUTOFF_DURATION)) :=
    scanAt_cutoff_persist B cfg ex l s0 _ (j + 1) k hjk hcut
  have hnhk : (scanAt B cfg ex l s0 k).2 = false := by
    cases hh : (scanAt B cfg ex l s0 k).2 with
    | false => rfl
    | true =>
      exfalso
      rw [scanAt_succ_frozen hh] at hadm
      exact hadm rfl
  have hstepk := scanAt_succ_step hklen b hkb hnhk
  have hadm2 : (scanStep B cfg ex (scanAt B cfg ex l s0 k).1 b).1.chosen_indices ≠
      (scanAt B cfg ex l s0 k).1.chosen_indices := by
    rw [← hstepk]
    exact hadm
  have hqtb := scanStep_chosen_changed B cfg ex _ b hadm2 _ hpk
  have hmq : x2.2.queue_time ≤ a.2.queue_time := hmono j2 j x2 a (by omega) hx2 hja
  rw [he2] at hqtb
  omega

theorem c7_cutoff_bound_witness :
    entB7.queue_time ≤ entA7.queue_time + CUTOFF_DURATION :=
  c7_cutoff_bound FlashBatch cfg7 ex7 l7 (initScan FlashBatch ex7 0) rfl
    (by
      intro i j a b hij ha hb
      have hma := List.get?_mem ha
      have hmb := List.get?_mem hb
      fin_cases hma <;> fin_cases hmb <;> decide)
    0 1 (by decide) (0, entA7) (1, entB7) rfl rfl
    ⟨by decide, by decide⟩ (by decide)

/-! ## C5: the prefill-weight bound on chosen entries -/

/-- The invariant the selection loop maintains on its prefill statistics: they
are the fold of the chosen entries (output length 0), and as soon as an entry
has been chosen they weigh within `prefill_weight_limit` at the chosen batch
size. -/
def c5Inv {S : Type} (B : BatchType S) (cfg : BatchingConfig) (s : ScanState S) : Prop :=
  s.prefill_stats = prefillFold B s.chosen_indices ∧
  (s.chosen_indices ≠ [] →
    B.prefill_weight s.prefill_stats s.chosen_indices.length ≤ cfg.prefill_weight_limit)

theorem prefillFold_append {S : Type} (B : BatchType S) (chosen : List (Nat × Nat × EntryE))
    (c : Nat × Nat × EntryE) :
    prefillFold B (chosen ++ [c]) = B.update_stats (prefillFold B chosen) c.2.2.truncate 0 := by
  simp [prefillFold, List.foldl_append]

/-- A loop iteration either leaves the prefill statistics and the chosen list
unchanged, or commits the scanned entry: it appends it to the chosen list and,
when the prefill limit is enabled, folds it into the prefill statistics having
checked the tentative prefill weight against the limit. -/
theorem scanStep_prefill_cases {S : Type} (B : BatchType S) (cfg : BatchingConfig)
    (ex : List (Nat × EntryE)) (s : ScanState S) (x : Nat × EntryE) :
    ((scanStep B cfg ex s x).1.prefill_stats = s.prefill_stats ∧
      (scanStep B cfg ex s x).1.chosen_indices = s.chosen_indices) ∨
    (∃ c, (scanStep B cfg ex s x).1.chosen_indices = s.chosen_indices ++ [c] ∧
      c.2.2 = x.2 ∧
      ((0 < cfg.prefill_weight_limit ∧
        (scanStep B cfg ex s x).1.prefill_stats =
          B.update_stats s.prefill_stats x.2.truncate 0 ∧
        ¬ B.prefill_weight (B.update_stats s.prefill_stats x.2.truncate 0)
            (s.chosen_indices.length + 1) > cfg.prefill_weight_limit) ∨
       (¬ 0 < cfg.prefill_weight_limit ∧
        (scanStep B cfg ex s x).1.prefill_stats = s.prefill_stats))) := by
  simp only [scanStep, scanAccept, scanCommit]
  split <;> (try split) <;> (try split) <;> (try split) <;> (try split) <;> (try split) <;>
    (try split)
  all_goals first
    | (left; exact ⟨rfl, rfl⟩)
    | (right; exact ⟨_, rfl, rfl, Or.inl ⟨by assumption, rfl, by assumption⟩⟩)
    | (right; exact ⟨_, rfl, rfl, Or.inr ⟨by assumption, rfl⟩⟩)

theorem scanLoop_c5 {S : Type} (B : BatchType S) (cfg : BatchingConfig)
    (ex : List (Nat × EntryE)) (hpl : 0 < cfg.prefill_weight_limit) :
    ∀ (l : List (Nat × EntryE)) (s : ScanState S),
      c5Inv B cfg s → c5Inv B cfg (scanLoop B cfg ex l s) := by
  intro l
  induction l with
  | nil => intro s h; exact h
  | cons x rest ih =>
    intro s h
    have hstep : c5Inv B cfg (scanStep B cfg ex s x).1 := by
      rcases scanStep_prefill_cases B cfg ex s x with ⟨hp, hc⟩ | ⟨c, hc, hcx, hrest⟩
      · exact ⟨by rw [hp, hc, h.1], by rw [hp, hc]; exact h.2⟩
      · rcases hrest with ⟨_, hp, hpw⟩ | ⟨hnpl, _⟩
        · constructor
          · rw [hp, hc, prefillFold_append, hcx, h.1]
          · intro _
            rw [hp, hc]
            simp only [List.length_append, List.length_cons, List.length_nil, Nat.zero_add]
            exact Nat.le_of_not_lt hpw
        · exact absurd hpl hnpl
    cases hs : scanStep B cfg ex s x with
    | mk s1 halted =>
      rw [hs] at hstep
      cases halted with
      | true => simpa only [scanLoop, hs] using hstep
      | false =>
        simp only [scanLoop, hs]
        exact ih s1 hstep

/-- When `next_batch` returns a new batch, the selection scan chose at least
one entry, the batch's `size` is the number of its requests, and the batch was
built by the pop loop from the scan's chosen indices. -/
theorem nextBatch_some_spec {S : Type} (B : BatchType S) (st : StateE)
    (existingOpt : Option (List (Nat × EntryE))) (now : Nat) (st2 : StateE)
    (bents : List (Nat × EntryE)) (batch : BatchE)
    (h : nextBatch B st existingOpt now = some (st2, some (bents, batch))) :
    (nextBatchScan B st (existingOpt.getD [])).chosen_indices ≠ [] ∧
    batch.size = batch.requests.length ∧
    ∃ entries3,
      buildBatch now (nextBatchScan B st (existingOpt.getD [])).chosen_indices 0
        (applyDrops (prepState st (existingOpt.getD []).length).entries
          (nextBatchScan B st (existingOpt.getD [])).indices_to_drop) [] [] =
        some (entries3, batch.requests, bents) := by
  simp only [nextBatch] at h
  split at h
  · simp at h
  · split at h
    · simp at h
    · split at h
      case isTrue hc => simp at h
      case isFalse hc =>
        split at h
        · simp at h
        · split at h
          case h_1 heq => simp at h
          case h_2 e3 reqs bes heq =>
            simp only [Option.some.injEq, Prod.mk.injEq] at h
            obtain ⟨h1, h2, h3⟩ := h
            refine ⟨?_, ?_, e3, ?_⟩
            · intro hnil
              exact hc (by rw [hnil]; rfl)
            · rw [← h3]
            · rw [← h3, ← h2]
              exact heq

/-- C5: for every batch returned by `next_batch` with
`prefill_weight_limit > 0`, the cost model's prefill weight of the chosen
entries' prefill statistics (each folded in with output length 0), at batch
size equal to the number of chosen entries, is at most
`prefill_weight_limit`. -/
theorem c5_prefill_weight_bound {S : Type} (B : BatchType S) (st : StateE)
    (existingOpt : Option (List (Nat × EntryE))) (now : Nat) (st2 : StateE)
    (bents : List (Nat × EntryE)) (batch : BatchE)
    (hret : nextBatch B st existingOpt now = some (st2, some (bents, batch)))
    (hpl : 0 < st.config.prefill_weight_limit) :
    B.prefill_weight
        (prefillFold B (nextBatchScan B st (existingOpt.getD [])).chosen_indices)
        (nextBatchScan B st (existingOpt.getD [])).chosen_indices.length ≤
      st.config.prefill_weight_limit := by
  have hne := (nextBatch_some_spec B st existingOpt now st2 bents batch hret).1
  have hinv : c5Inv B st.config (nextBatchScan B st (existingOpt.getD [])) := by
    simp only [nextBatchScan]
    exact scanLoop_c5 B st.config (existingOpt.getD []) hpl _ _
      ⟨rfl, fun hx => absurd rfl hx⟩
  rw [← hinv.1]
  exact hinv.2 hne

/-- Concrete scenario witnessing C5: prefill limit 5, one entry of input 2. -/
def entC5 : EntryE :=
  { truncate := 2, max_new_tokens := 1, generated_tokens := 0, disconnected := false,
    queue_time := 0, batch_time := none }

def st5 : StateE :=
  { config := { size_limit := 10, weight_limit := 1000, prefill_weight_limit := 5 },
    entries := [(0, entC5)], next_id := 1, next_batch_id := 0, last_seen_batch_size := 0,
    checked_request_count := 0, buffer_contents_insufficient := false }

/-- The state `nextBatch` leaves behind in the witness scenario. -/
def st5After : StateE :=
  { config := { size_limit := 10, weight_limit := 1000, prefill_weight_limit := 5 },
    entries := [], next_id := 1, next_batch_id := 1, last_seen_batch_size := 0,
    checked_request_count := 0, buffer_contents_insufficient := false }

/-- The `batch_entries` map `nextBatch` returns in the witness scenario. -/
def bents5 : List (Nat × EntryE) := [(0, { entC5 with batch_time := some 0 })]

/-- The batch `nextBatch` returns in the witness scenario. -/
def batch5 : BatchE :=
  { id := 0, requests := [{ id := 0, truncate := 2, max_new_tokens := 1 }], size := 1 }

theorem c5_prefill_weight_bound_witness :
    FlashBatch.prefill_weight
        (prefillFold FlashBatch (nextBatchScan FlashBatch st5 []).chosen_indices)
        (nextBatchScan FlashBatch st5 []).chosen_indices.length ≤
      st5.config.prefill_weight_limit :=
  c5_prefill_weight_bound FlashBatch st5 none 0 st5After bents5 batch5
    (by decide) (by decide)

/-! ## C10: a returned batch is non-empty and consistent -/

theorem insertA_mem (l : List (Nat × EntryE)) (eid : Nat) (e : EntryE) (x : Nat) :
    (∃ v, (x, v) ∈ insertA l eid e) ↔ (∃ v, (x, v) ∈ l) ∨ x = eid := by
  unfold insertA
  split
  case isTrue hany =>
    simp only [List.any_eq_true, decide_eq_true_eq] at hany
    obtain ⟨p, hp, hpeid⟩ := hany
    constructor
    · rintro ⟨v, hv⟩
      rw [List.mem_map] at hv
      obtain ⟨q, hq, hqe⟩ := hv
      by_cases hqx : q.1 = eid
      · rw [if_pos hqx] at hqe
        right
        have := congrArg Prod.fst hqe
        simpa using this.symm
      · rw [if_neg hqx] at hqe
        exact Or.inl ⟨v, hqe ▸ hq⟩
    · rintro (⟨v, hv⟩ | rfl)
      · by_cases hvx : x = eid
        · subst hvx
          exact ⟨e, List.mem_map.mpr ⟨p, hp, by rw [if_pos hpeid]⟩⟩
        · exact ⟨v, List.mem_map.mpr ⟨(x, v), hv, by simp [hvx]⟩⟩
      · exact ⟨e, List.mem_map.mpr ⟨p, hp, by rw [if_pos hpeid]⟩⟩
  case isFalse hany =>
    constructor
    · rintro ⟨v, hv⟩
      rw [List.mem_append] at hv
      rcases hv with h | h
      · exact Or.inl ⟨v, h⟩
      · right
        simp at h
        exact h.1
    · rintro (⟨v, hv⟩ | rfl)
      · exact ⟨v, List.mem_append.mpr (Or.inl hv)⟩
      · exact ⟨e, List.mem_append.mpr (Or.inr (by simp))⟩

/-- The pop loop adds exactly one request per chosen index and keeps the
`batch_entries` keys equal to the request ids. -/
theorem buildBatch_spec (now : Nat) :
    ∀ (ch : List (Nat × Nat × EntryE)) (i : Nat) (dq : List (Nat × EntryE))
      (reqs : List RequestE) (bents : List (Nat × EntryE))
      (dq2 : List (Nat × EntryE)) (reqs2 : List RequestE) (bents2 : List (Nat × EntryE)),
      buildBatch now ch i dq reqs bents = some (dq2, reqs2, bents2) →
      reqs2.length = reqs.length + ch.length ∧
      ((∀ x : Nat, (∃ v, (x, v) ∈ bents) ↔ x ∈ reqs.map RequestE.id) →
        ∀ x : Nat, (∃ v, (x, v) ∈ bents2) ↔ x ∈ reqs2.map RequestE.id) := by
  intro ch
  induction ch with
  | nil =>
    intro i dq reqs bents dq2 reqs2 bents2 h
    simp only [buildBatch, Option.some.injEq, Prod.mk.injEq] at h
    obtain ⟨-, h2, h3⟩ := h
    subst h2
    subst h3
    exact ⟨by simp, fun hp => hp⟩
  | cons c rest ih =>
    intro i dq reqs bents dq2 reqs2 bents2 h
    simp only [buildBatch] at h
    cases hr : removeAt dq (c.1 - i) with
    | none =>
      rw [hr] at h
      simp at h
    | some pr =>
      obtain ⟨⟨eid, e⟩, dq1⟩ := pr
      rw [hr] at h
      dsimp only at h
      obtain ⟨hlen, hkeys⟩ := ih (i + 1) dq1 _ _ dq2 reqs2 bents2 h
      constructor
      · rw [hlen]
        simp
        omega
      · intro hpre
        apply hkeys
        intro y
        rw [insertA_mem, hpre y]
        simp

/-- C10: every new batch returned by `next_batch` is non-empty, its `size`
field equals the length of its request vector, and the accompanying
`batch_entries` map holds exactly the same set of request ids. -/
theorem c10_new_batch_well_formed {S : Type} (B : BatchType S) (st : StateE)
    (existingOpt : Option (List (Nat × EntryE))) (now : Nat) (st2 : StateE)
    (bents : List (Nat × EntryE)) (batch : BatchE)
    (hret : nextBatch B st existingOpt now = some (st2, some (bents, batch))) :
    batch.requests ≠ [] ∧ batch.size = batch.requests.length ∧
    (∀ x : Nat, (∃ v, (x, v) ∈ bents) ↔ x ∈ batch.requests.map RequestE.id) := by
  obtain ⟨hne, hsize, e3, hb⟩ := nextBatch_some_spec B st existingOpt now st2 bents batch hret
  obtain ⟨hlen, hkeys⟩ := buildBatch_spec now
    (nextBatchScan B st (existingOpt.getD [])).chosen_indices 0 _ [] [] e3
    batch.requests bents hb
  refine ⟨?_, hsize, hkeys (by intro x; simp)⟩
  intro hnil
  rw [hnil] at hlen
  simp at hlen
  exact hne (List.length_eq_zero.mp hlen.symm)

theorem c10_new_batch_well_formed_witness :
    batch5.requests ≠ [] ∧ batch5.size = batch5.requests.length ∧
    (∀ x : Nat, (∃ v, (x, v) ∈ bents5) ↔ x ∈ batch5.requests.map RequestE.id) :=
  c10_new_batch_well_formed FlashBatch st5 none 0 st5After bents5 batch5 (by decide)

end TGI
